import Mathlib

/-!
Shallow embedding of `src/ELP2000Calculator.js` (ELP2000 lunar-series
calculator): the evaluator `calc`, the error estimator `estimateMaxError`,
the instantaneous truncation optimizer `makeTruncationNums`, the temporal
averager `makeMeanTruncationNums` and the safety refiner
`makeSafeTruncationNums`.  JavaScript numbers are modelled as reals,
arrays as lists, a possibly-absent plan entry as `Option`, a thrown
`TypeError` as a `crash` outcome, and the optimizer's unbounded
`while(1)` loop as a fuel-indexed step relation.
-/

noncomputable section

/-- One term of a series block: amplitude and five phase coefficients,
mirroring the six-element rows `[A, p0, p1, p2, p3, p4]` of the data
arrays consumed by the calculator. -/
structure Term where
  a : ℝ
  p0 : ℝ
  p1 : ℝ
  p2 : ℝ
  p3 : ℝ
  p4 : ℝ

/-- Default term used only for total list indexing; every proof keeps
indices in range so it is never observed. -/
def zeroTerm : Term := ⟨0, 0, 0, 0, 0, 0⟩

/-- A block: an ordered list of terms (`dataArray[i]`). -/
abbrev Block := List Term

/-- A series model: an ordered list of blocks (`dataArray`). -/
abbrev Model := List Block

/-- A truncation plan (`tNumsArray`): one entry per block; `none`
models an undefined array slot. -/
abbrev Plan := List (Option ℕ)

/-- Modelled from the spec: the external time context
(`JDateRepository`, not part of this repository) converts a Julian day
number into Julian centuries from epoch J2000 (JD 2451545.0, 36525 days
per century); `jdr.JDECP k` is then the k-th power of that value and
`jdr.JDEC` its first power. -/
def jdec (jd : ℝ) : ℝ := (jd - 2451545) / 36525

/-- Effective retained-term count for block `i` of length `len`:
`tNumsArray != undefined && tNumsArray[i] != undefined
 ? Math.min(tNumsArray[i], dataArray[i].length) : dataArray[i].length`
(shared by `calc` and `estimateMaxError`). -/
def effN (plan : Option Plan) (i : ℕ) (len : ℕ) : ℕ :=
  match plan with
  | none => len
  | some p =>
    match p.getD i none with
    | none => len
    | some v => min v len

/-- The phase argument `A` of one term inside `calc`:
`p0 + p1*t1 + p2*t2 + p3*t3 + p4*t4` with `t1 = JDEC`,
`t2 = JDECP(2)/1e4`, `t3 = JDECP(3)/1e8`, `t4 = JDECP(4)/1e8`. -/
def termPhase (t : ℝ) (tm : Term) : ℝ :=
  tm.p0 + tm.p1 * t + tm.p2 * (t ^ 2 / 1e4) + tm.p3 * (t ^ 3 / 1e8) +
    tm.p4 * (t ^ 4 / 1e8)

/-- The inner loop of `calc` for one block: the sum of
`A_j * cos(phase_j)` over the first `n` terms. -/
def blockSum (t : ℝ) (b : Block) (n : ℕ) : ℝ :=
  ((b.take n).map (fun tm => tm.a * Real.cos (termPhase t tm))).sum

/-- One block's contribution to `calc`: the truncated trigonometric sum
weighted by `JDECP(i) = t^i`. -/
def blockContribution (t : ℝ) (data : Model) (plan : Option Plan) (i : ℕ) : ℝ :=
  blockSum t (data.getD i []) (effN plan i (data.getD i []).length) * t ^ i

/-- The evaluator `calc(dataArray, tNumsArray)` at time `t` (the method
reads `this.private.jdr`; `calc` is a reserved word in Lean). -/
def calcSeries (t : ℝ) (data : Model) (plan : Option Plan) : ℝ :=
  ((List.range data.length).map (blockContribution t data plan)).sum

/-- One block's contribution to `estimateMaxError`: zero when the
effective count `n` is zero (`if (!n) continue`), otherwise
`sqrt(n) * A * JDECP(i)` with `A = dataArray[i][n-1][0]`. -/
def blockErr (t : ℝ) (data : Model) (plan : Option Plan) (i : ℕ) : ℝ :=
  let n := effN plan i (data.getD i []).length
  if n = 0 then 0
  else Real.sqrt n * ((data.getD i []).getD (n - 1) zeroTerm).a * t ^ i

/-- The error estimator `estimateMaxError(dataArray, tNumsArray)` at
time `t`: twice the accumulated per-block bound. -/
def estimateMaxError (t : ℝ) (data : Model) (plan : Option Plan) : ℝ :=
  2 * ((List.range data.length).map (blockErr t data plan)).sum

/-- The loop state of `makeTruncationNums`: the working arrays
`tNumsArray`, `reductionsArray`, `accuracysArray`, the running total
`accuracysSum`, the iteration counter `i`, the current endpoint `item`
and the (locally mutable) `maximumError`. -/
structure OptState where
  tNums : List ℕ
  reds : List ℝ
  accs : List ℝ
  accSum : ℝ
  i : ℕ
  item : ℕ
  maxErr : ℝ

/-- Result of one iteration of the `while(1)` body: a thrown
`TypeError` (`crash`), a `break` with the final state (`done`), or the
next iteration's state (`next`). -/
inductive StepRes where
  | crash : StepRes
  | done : OptState → StepRes
  | next : OptState → StepRes

/-- Result of running the loop with finite fuel: `fuelOut` when the
fuel is exhausted before a `break`. -/
inductive RunRes where
  | fuelOut : RunRes
  | crash : RunRes
  | done : OptState → RunRes

/-- The max-reduction scan of the greedy pass:
`maxReduction = 0; for j in 0..T-1: if reds[j] > maxReduction
{ maxReduction = reds[j]; nextItem = j }` — strict comparison, so the
first maximal index wins, and an all-nonpositive array leaves
`nextItem = 0`. -/
def scanMaxIdx (T : ℕ) (reds : List ℝ) : ℕ :=
  ((List.range T).foldl
    (fun acc j => if reds.getD j 0 > acc.1 then (reds.getD j 0, j) else acc)
    ((0 : ℝ), (0 : ℕ))).2

/-- Intermediate values of one loop iteration, up to (but not
including) the two `break` checks. -/
structure StepMid where
  item : ℕ
  tNum : ℕ
  acc : ℝ
  accSum2 : ℝ
  reds2 : List ℝ
  tNums3 : List ℕ
  accs1 : List ℝ
  nextItem : ℕ

/-- The body of the optimizer loop before the `break` checks, from the
source of `makeTruncationNums`:
item/`i === T` bookkeeping, the exhausted-block rollback, the new
endpoint accuracy `sqrt(tNum)*A*JDECP(item)`, the seeding accumulation,
the reduction record, and the greedy max-reduction increment.  `none`
models the `TypeError` thrown when `dataArray[item]` or the accessed
term row is undefined. -/
def stepCore (data : Model) (t : ℝ) (s : OptState) : Option StepMid :=
  let T := data.length
  let item0 := if s.i < T then s.i % T else s.item
  let item := if s.i = T then 0 else item0
  let tNums1 := if s.i = T then s.tNums.set 0 (s.tNums.getD 0 0 + 1) else s.tNums
  match data[item]? with
  | none => none
  | some block =>
    let count := tNums1.getD item 0
    let roll := block.length ≤ count
    let tNums2 := if roll then tNums1.set item (count - 1) else tNums1
    let reds1 := if roll then s.reds.set item 0 else s.reds
    let tNum := if roll then count else count + 1
    match block[tNum - 1]? with
    | none => none
    | some tm =>
      let acc := Real.sqrt tNum * tm.a * t ^ item
      let accSum1 := if s.i < T then s.accSum + acc else s.accSum
      let red := |if s.accs.getD item 0 = 0 then acc else s.accs.getD item 0 - acc|
      let reds2 := reds1.set item red
      let greedy := T ≤ s.i
      let nextItem := if greedy then scanMaxIdx T reds2 else 0
      let tNums3 :=
        if greedy then tNums2.set nextItem (tNums2.getD nextItem 0 + 1) else tNums2
      let accSum2 :=
        if greedy then accSum1 - (s.accs.getD item 0 - acc) else accSum1
      some ⟨item, tNum, acc, accSum2, reds2, tNums3, s.accs.set item acc, nextItem⟩

/-- One full iteration of the optimizer loop, with the two `break`
checks: the error-bound exit (which re-derives the true estimate and
adjusts the local `maximumError` when it is exceeded) and the
forced exit on the last block being exhausted. -/
def step (data : Model) (t : ℝ) (s : OptState) : StepRes :=
  match stepCore data t s with
  | none => .crash
  | some m =>
    if data.length < s.i ∧ |m.accSum2| ≤ s.maxErr then
      let trueME := estimateMaxError t data (some (m.tNums3.map some))
      let newMaxErr :=
        if s.maxErr < trueME then s.maxErr - (trueME - s.maxErr) * 4 / 3 else s.maxErr
      .done ⟨m.tNums3, m.reds2, m.accs1, m.accSum2, s.i, m.item, newMaxErr⟩
    else if m.tNums3.getD (data.length - 1) 0 = (data.getD (data.length - 1) []).length then
      .done ⟨m.tNums3, m.reds2, m.accs1, m.accSum2, s.i, m.item, s.maxErr⟩
    else
      .next ⟨m.tNums3, m.reds2, m.accs1, m.accSum2, s.i + 1, m.nextItem, s.maxErr⟩

/-- The spec's variant of `step` with the post-termination
`maximumError` adjustment removed; otherwise identical. -/
def stepNA (data : Model) (t : ℝ) (s : OptState) : StepRes :=
  match stepCore data t s with
  | none => .crash
  | some m =>
    if data.length < s.i ∧ |m.accSum2| ≤ s.maxErr then
      .done ⟨m.tNums3, m.reds2, m.accs1, m.accSum2, s.i, m.item, s.maxErr⟩
    else if m.tNums3.getD (data.length - 1) 0 = (data.getD (data.length - 1) []).length then
      .done ⟨m.tNums3, m.reds2, m.accs1, m.accSum2, s.i, m.item, s.maxErr⟩
    else
      .next ⟨m.tNums3, m.reds2, m.accs1, m.accSum2, s.i + 1, m.nextItem, s.maxErr⟩

/-- The `while(1)` loop, fuel-indexed. -/
def runOpt (data : Model) (t : ℝ) : ℕ → OptState → RunRes
  | 0, _ => .fuelOut
  | fuel + 1, s =>
    match step data t s with
    | .crash => .crash
    | .done s1 => .done s1
    | .next s1 => runOpt data t fuel s1

/-- The fuel-indexed loop for the adjustment-free variant. -/
def runOptNA (data : Model) (t : ℝ) : ℕ → OptState → RunRes
  | 0, _ => .fuelOut
  | fuel + 1, s =>
    match stepNA data t s with
    | .crash => .crash
    | .done s1 => .done s1
    | .next s1 => runOptNA data t fuel s1

/-- The initial loop state: all three working arrays zero-filled over
the `T` blocks, `accuracysSum = 0`, `i = 0`, `item = 0`. -/
def initState (T : ℕ) (e : ℝ) : OptState :=
  ⟨List.replicate T 0, List.replicate T 0, List.replicate T 0, 0, 0, 0, e⟩

/-- The optimizer `makeTruncationNums(dataArray, maximumError)` at time `t` with the
given fuel: the negative-budget validation throws
(`maximumError < 0` → crash), otherwise the loop runs from the
zero-initialized state. -/
def makeTruncationNums (t : ℝ) (data : Model) (e : ℝ) (fuel : ℕ) : RunRes :=
  if e < 0 then .crash else runOpt data t fuel (initState data.length e)

/-- The adjustment-free variant of `makeTruncationNums`. -/
def makeTruncationNumsNA (t : ℝ) (data : Model) (e : ℝ) (fuel : ℕ) : RunRes :=
  if e < 0 then .crash else runOptNA data t fuel (initState data.length e)

/-- The truncation plan returned by a run, when it terminated
normally. -/
def planOf : RunRes → Option (List ℕ)
  | .done s => some s.tNums
  | _ => none

/-- The per-block accumulation of `makeMeanTruncationNums`:
`if (sumsArray[j] === undefined) sumsArray[j] = 0;
 sumsArray[j] += tNumsArray[j]` for `j < tNumsArray.length`. -/
def addPlans : List ℕ → List ℕ → List ℕ
  | sums, [] => sums
  | [], a :: p => (0 + a) :: addPlans [] p
  | b :: sums, a :: p => (b + a) :: addPlans sums p

/-- The sample spacing of `makeMeanTruncationNums`:
`t = (3912458 - 260732) / n` with `n = 100`. -/
def meanSpan : ℝ := (3912458 - 260732) / 100

/-- The sampling loop of `makeMeanTruncationNums`: at sample `i` the
calculator's `jdr` is reassigned to `new JDateRepository(jd0 + i*t)`
and `makeTruncationNums` runs at that time; per-block counts are
accumulated into `sums`.  The final component is the `jdr` observable
by the caller after the loop (the last sample's time).  `none` models a
propagated throw (or fuel exhaustion) from the inner optimizer. -/
def meanLoop (data : Model) (e : ℝ) (fuel : ℕ) :
    ℕ → ℕ → List ℕ → ℝ → Option (List ℕ × ℝ)
  | _, 0, sums, tcur => some (sums, tcur)
  | i, r + 1, sums, _tcur =>
    let tNew := jdec (260732 + i * meanSpan)
    match planOf (makeTruncationNums tNew data e fuel) with
    | none => none
    | some p => meanLoop data e fuel (i + 1) r (addPlans sums p) tNew

/-- The averager `makeMeanTruncationNums(dataArray, maximumError)`: 100 samples,
then the ceiling of each per-block mean
(`Math.ceil(sumsArray[i] / n)`).  The second component is the
calculator's `jdr` after the call. -/
def makeMeanTruncationNums (data : Model) (e : ℝ) (fuel : ℕ) (t0 : ℝ) :
    Option (List ℕ × ℝ) :=
  (meanLoop data e fuel 0 100 [] t0).map
    (fun pr => (pr.1.map (fun x => (x + 99) / 100), pr.2))

/-- The retry loop of `makeSafeTruncationNums`, counting remaining
iterations: compute the mean plan, re-derive the true estimate at the
calculator's (just mutated) `jdr`, return on success, halve the budget
and retry on failure, and return the last plan anyway after the final
iteration. -/
def safeGo (data : Model) (fuel : ℕ) : ℕ → ℝ → ℝ → Option (List ℕ × ℝ)
  | 0, _, _ => none
  | k + 1, e, t =>
    match makeMeanTruncationNums data e fuel t with
    | none => none
    | some (p, t1) =>
      if e < estimateMaxError t1 data (some (p.map some)) then
        match k with
        | 0 => some (p, t1)
        | k1 + 1 => safeGo data fuel (k1 + 1) (e / 2) t1
      else some (p, t1)

/-- The refiner `makeSafeTruncationNums(dataArray, maximumError)`: at most 5
iterations of the retry loop. -/
def makeSafeTruncationNums (data : Model) (e : ℝ) (fuel : ℕ) (t0 : ℝ) :
    Option (List ℕ × ℝ) :=
  safeGo data fuel 5 e t0

/-- The result of the `j`-th `makeMeanTruncationNums` call inside the
safety refiner, with the budget halved and the `jdr` threaded at each
stage. -/
def safeStage (data : Model) (fuel : ℕ) : ℕ → ℝ → ℝ → Option (List ℕ × ℝ)
  | 0, e, t => makeMeanTruncationNums data e fuel t
  | j + 1, e, t =>
    match makeMeanTruncationNums data e fuel t with
    | none => none
    | some (_, t1) => safeStage data fuel j (e / 2) t1

/-- Stage `j` of the safety refiner succeeds: its mean plan's true
estimate is within the `j`-times-halved budget. -/
def stageOK (data : Model) (fuel : ℕ) (j : ℕ) (e t : ℝ) : Prop :=
  ∃ pr, safeStage data fuel j e t = some pr ∧
    estimateMaxError pr.2 data (some (pr.1.map some)) ≤ e / 2 ^ j

end

noncomputable section

/-! ## List helpers -/

theorem getD_set_self {α : Type} (l : List α) (i : ℕ) (a d : α) (h : i < l.length) :
    (l.set i a).getD i d = a := by
  rw [List.getD_eq_getElem?_getD, List.getElem?_set_self h, Option.getD_some]

theorem getD_set_ne {α : Type} (l : List α) (i j : ℕ) (a d : α) (h : i ≠ j) :
    (l.set i a).getD j d = l.getD j d := by
  rw [List.getD_eq_getElem?_getD, List.getElem?_set_ne h, ← List.getD_eq_getElem?_getD]

theorem sum_map_range (f : ℕ → ℝ) (n : ℕ) :
    ((List.range n).map f).sum = ∑ i in Finset.range n, f i := by
  induction n with
  | zero => simp
  | succ n ih =>
    rw [List.range_succ, List.map_append, List.sum_append, Finset.sum_range_succ, ih]
    simp

theorem estimate_eq_sum (t : ℝ) (data : Model) (plan : Option Plan) :
    estimateMaxError t data plan =
      2 * ∑ i in Finset.range data.length, blockErr t data plan i := by
  rw [estimateMaxError, sum_map_range]

/-! ## Concrete single-term model used in several witnesses -/

/-- A model with a single block `[[10, 0, 0, 0, 0, 0]]`. -/
def mTen : Model := [[⟨10, 0, 0, 0, 0, 0⟩]]

/-! ## Claims C2, C4, C5 -/

/-- C2 counterexample: in `calc`, at `t = 0` on the one-block model
`[[[10,0,0,0,0,0]]]`, the block-0 contribution with `plan = [0]` is 0
(zero terms summed), while with an undefined entry it is the full sum
10 — so `plan[i] = 0` and an undefined entry do not both mean "use all
terms". -/
theorem C2_counterexample :
    blockContribution 0 mTen (some [some 0]) 0 ≠ blockContribution 0 mTen (some []) 0 := by
  simp [blockContribution, blockSum, effN, mTen, termPhase, zeroTerm]

/-- C2 amended: in the evaluator a plan entry `0` means "use zero terms
of block i" (the block contributes nothing), while an undefined entry
means "use all terms of block i" (the same contribution as an entirely
omitted plan). -/
theorem C2_zero_vs_undefined (t : ℝ) (data : Model) (p : Plan) (i : ℕ) :
    (p.getD i none = some 0 → blockContribution t data (some p) i = 0) ∧
    (p.getD i none = none →
      blockContribution t data (some p) i = blockContribution t data none i) := by
  constructor
  · intro h
    have h0 : effN (some p) i (data.getD i []).length = 0 := by
      simp only [effN, h]
      exact Nat.zero_min _
    rw [blockContribution, h0]
    simp [blockSum]
  · intro h
    have h0 : effN (some p) i (data.getD i []).length =
        effN none i (data.getD i []).length := by
      simp only [effN, h]
    rw [blockContribution, blockContribution, h0]

/-- C2 witness: the amended statement applied at `t = 0`,
`data = [[[10,0,0,0,0,0]]]`, with the zero entry `[0]` and with the
undefined entry `[]`. -/
theorem C2_witness :
    blockContribution 0 mTen (some [some 0]) 0 = 0 ∧
    blockContribution 0 mTen (some []) 0 = blockContribution 0 mTen none 0 :=
  ⟨(C2_zero_vs_undefined 0 mTen [some 0] 0).1 rfl,
   (C2_zero_vs_undefined 0 mTen [] 0).2 rfl⟩

/-- C4 confirmed: `estimateMaxError(model, plan)` equals 2 times the
sum, over every block `i` whose effective retained count `n` (min of
`plan[i]` and the block length, or the block length when `plan[i]` is
unspecified) is non-zero, of `sqrt(n) * A * t^i` with `A` the amplitude
of the last retained term (index `n-1`); blocks with `n = 0` contribute
nothing. -/
theorem C4_estimate_formula (t : ℝ) (data : Model) (plan : Option Plan) :
    estimateMaxError t data plan =
      2 * ∑ i in Finset.range data.length,
        (let len := (data.getD i []).length
         let n : ℕ := match plan with
           | none => len
           | some p =>
             match p.getD i none with
             | none => len
             | some v => min v len
         if n = 0 then 0
         else Real.sqrt n * ((data.getD i []).getD (n - 1) zeroTerm).a * t ^ i) := by
  rw [estimate_eq_sum]
  rfl

/-- C5 counterexample: for the fixed model `[[[10,0,0,0,0,0]]]` at
`t = 0`, raising `plan[0]` from 0 to 1 (both within the block length)
raises the estimated error from 0 to 20, so `estimateMaxError` is not
non-increasing in the plan entries. -/
theorem C5_counterexample :
    ¬ estimateMaxError 0 mTen (some [some 1]) ≤ estimateMaxError 0 mTen (some [some 0]) := by
  simp [estimateMaxError, blockErr, effN, mTen, zeroTerm, List.range_succ, Real.sqrt_one]

/-- C5 amended: the estimate is non-increasing under a unit increase of
a plan entry only from `n ≥ 1` and under the amplitude-decay condition
`sqrt(n+1)*A(n) ≤ sqrt(n)*A(n-1)` on the two candidate last retained
terms (with `t ≥ 0`); raising an entry from 0 always weakly increases
the estimate, and sorted amplitudes alone do not give monotonicity. -/
theorem C5_mono_amended (t : ℝ) (data : Model) (p : Plan) (i n : ℕ)
    (ht : 0 ≤ t) (hn : 1 ≤ n) (hlen : n + 1 ≤ (data.getD i []).length)
    (hp : p.getD i none = some n)
    (hA : Real.sqrt ((n : ℝ) + 1) * ((data.getD i []).getD n zeroTerm).a ≤
          Real.sqrt (n : ℝ) * ((data.getD i []).getD (n - 1) zeroTerm).a) :
    estimateMaxError t data (some (p.set i (some (n + 1)))) ≤
      estimateMaxError t data (some p) := by
  rw [estimate_eq_sum, estimate_eq_sum]
  have h2 : (0 : ℝ) ≤ 2 := by norm_num
  refine mul_le_mul_of_nonneg_left (Finset.sum_le_sum ?_) h2
  intro j hj
  by_cases hij : j = i
  · subst hij
    have hi : j < p.length := by
      by_contra hcon
      push_neg at hcon
      rw [List.getD_eq_getElem?_getD, List.getElem?_eq_none (by omega)] at hp
      simp at hp
    have e1 : effN (some (p.set j (some (n + 1)))) j (data.getD j []).length = n + 1 := by
      simp only [effN, getD_set_self p j (some (n + 1)) none hi]
      omega
    have e2 : effN (some p) j (data.getD j []).length = n := by
      simp only [effN, hp]
      omega
    simp only [blockErr, e1, e2]
    rw [if_neg (by omega), if_neg (by omega)]
    have hpow : (0 : ℝ) ≤ t ^ j := pow_nonneg ht j
    have := mul_le_mul_of_nonneg_right hA hpow
    simpa [Nat.add_sub_cancel, mul_assoc, Nat.cast_add, Nat.cast_one] using this
  · have heq : (p.set i (some (n + 1))).getD j none = p.getD j none :=
      getD_set_ne p i j (some (n + 1)) none (fun h => hij h.symm)
    have heff : effN (some (p.set i (some (n + 1)))) j (data.getD j []).length =
        effN (some p) j (data.getD j []).length := by
      simp only [effN, heq]
    simp only [blockErr, heff]
    exact le_rfl

/-- C5 witness: the amended monotonicity applied at `t = 0`, model
`[[[10,...],[3,...]]]`, entry raised from 1 to 2, where
`sqrt(2)*3 ≤ sqrt(1)*10`. -/
theorem C5_witness :
    estimateMaxError 0 [[⟨10, 0, 0, 0, 0, 0⟩, ⟨3, 0, 0, 0, 0, 0⟩]] (some [some 2]) ≤
      estimateMaxError 0 [[⟨10, 0, 0, 0, 0, 0⟩, ⟨3, 0, 0, 0, 0, 0⟩]] (some [some 1]) := by
  have h := C5_mono_amended 0 [[⟨10, 0, 0, 0, 0, 0⟩, ⟨3, 0, 0, 0, 0, 0⟩]]
    [some 1] 0 1 le_rfl le_rfl (by simp) rfl
    (by
      simp [zeroTerm, Real.sqrt_one]
      nlinarith [Real.sq_sqrt (show (0:ℝ) ≤ 2 by norm_num), Real.sqrt_nonneg (2 : ℝ),
        Real.sq_sqrt (show (0:ℝ) ≤ 1 + 1 by norm_num), Real.sqrt_nonneg ((1:ℝ) + 1)])
  simpa using h

end

noncomputable section

/-! ## Concrete models for traces and witnesses -/

/-- A model with one block of one term `[[[1,0,0,0,0,0]]]`. -/
def mOne : Model := [[⟨1, 0, 0, 0, 0, 0⟩]]

/-- A model with two blocks of one term each. -/
def mTwo : Model := [[⟨1, 0, 0, 0, 0, 0⟩], [⟨1, 0, 0, 0, 0, 0⟩]]

/-! ## Trace of the optimizer on `mOne` (any time, any budget) -/

theorem step_mOne_0 (t e : ℝ) :
    step mOne t (initState 1 e) = .next ⟨[0], [1], [1], 1, 1, 0, e⟩ := by
  norm_num [step, stepCore, initState, mOne, scanMaxIdx, Real.sqrt_one]

theorem step_mOne_1 (t e : ℝ) :
    step mOne t ⟨[0], [1], [1], 1, 1, 0, e⟩ = .done ⟨[1], [0], [1], 1, 1, 0, e⟩ := by
  norm_num [step, stepCore, mOne, scanMaxIdx, Real.sqrt_one, List.range_succ]

theorem runOpt_mOne (t e : ℝ) :
    runOpt mOne t 2 (initState 1 e) = .done ⟨[1], [0], [1], 1, 1, 0, e⟩ := by
  simp only [show (2 : ℕ) = 0 + 1 + 1 from rfl, runOpt, step_mOne_0, step_mOne_1]

/-- On the one-term model the optimizer always terminates by forced
exit after two iterations with the plan `[1]`, at every time and every
admissible budget. -/
theorem mtn_mOne (t e : ℝ) (he : ¬ e < 0) :
    makeTruncationNums t mOne e 2 = .done ⟨[1], [0], [1], 1, 1, 0, e⟩ := by
  rw [makeTruncationNums, if_neg he]
  exact runOpt_mOne t e

theorem planOf_mOne (t e : ℝ) (he : ¬ e < 0) :
    planOf (makeTruncationNums t mOne e 2) = some [1] := by
  rw [mtn_mOne t e he, planOf]

/-! ## Exit analysis of the optimizer loop (claim C1) -/

theorem step_done_exit (data : Model) (t : ℝ) (s s1 : OptState)
    (h : step data t s = .done s1) :
    |s1.accSum| ≤ s.maxErr ∨
      s1.tNums.getD (data.length - 1) 0 = (data.getD (data.length - 1) []).length := by
  cases hc : stepCore data t s with
  | none => rw [step, hc] at h; exact absurd h (by simp)
  | some m =>
    rw [step, hc] at h
    dsimp only at h
    by_cases h1 : data.length < s.i ∧ |m.accSum2| ≤ s.maxErr
    · rw [if_pos h1] at h
      simp only [StepRes.done.injEq] at h
      subst h
      exact Or.inl h1.2
    · rw [if_neg h1] at h
      by_cases h2 : m.tNums3.getD (data.length - 1) 0 = (data.getD (data.length - 1) []).length
      · rw [if_pos h2] at h
        simp only [StepRes.done.injEq] at h
        subst h
        exact Or.inr h2
      · rw [if_neg h2] at h
        exact absurd h (by simp)

theorem step_next_maxErr (data : Model) (t : ℝ) (s s1 : OptState)
    (h : step data t s = .next s1) : s1.maxErr = s.maxErr := by
  cases hc : stepCore data t s with
  | none => rw [step, hc] at h; exact absurd h (by simp)
  | some m =>
    rw [step, hc] at h
    dsimp only at h
    by_cases h1 : data.length < s.i ∧ |m.accSum2| ≤ s.maxErr
    · rw [if_pos h1] at h; exact absurd h (by simp)
    · rw [if_neg h1] at h
      by_cases h2 : m.tNums3.getD (data.length - 1) 0 = (data.getD (data.length - 1) []).length
      · rw [if_pos h2] at h; exact absurd h (by simp)
      · rw [if_neg h2] at h
        simp only [StepRes.next.injEq] at h
        subst h
        rfl

theorem runOpt_done_exit (data : Model) (t : ℝ) :
    ∀ (fuel : ℕ) (s s1 : OptState), runOpt data t fuel s = .done s1 →
      |s1.accSum| ≤ s.maxErr ∨
        s1.tNums.getD (data.length - 1) 0 = (data.getD (data.length - 1) []).length := by
  intro fuel
  induction fuel with
  | zero => intro s s1 h; exact absurd h (by simp [runOpt])
  | succ n ih =>
    intro s s1 h
    rw [runOpt] at h
    cases hstep : step data t s with
    | crash => rw [hstep] at h; exact absurd h (by simp)
    | done s2 =>
      rw [hstep] at h
      simp only [RunRes.done.injEq] at h
      subst h
      exact step_done_exit data t s _ hstep
    | next s2 =>
      rw [hstep] at h
      rcases ih s2 s1 h with h1 | h1
      · exact Or.inl (step_next_maxErr data t s s2 hstep ▸ h1)
      · exact Or.inr h1

/-- C1 amended: whenever `makeTruncationNums` returns, either the
optimizer's internal error accumulator `accuracysSum` — the (un-doubled,
lookahead) quantity the exit test actually checks — satisfies
`|accuracysSum| ≤ maxError`, or the **last** block of the plan uses all
of that block's terms (the forced exit); the re-derived
`estimateMaxError` of the returned plan may exceed `maxError` even when
no block is exhausted. -/
theorem C1_exit_disjunction (data : Model) (t e : ℝ) (fuel : ℕ) (s : OptState)
    (h : makeTruncationNums t data e fuel = .done s) :
    |s.accSum| ≤ e ∨
      s.tNums.getD (data.length - 1) 0 = (data.getD (data.length - 1) []).length := by
  rw [makeTruncationNums] at h
  by_cases he : e < 0
  · rw [if_pos he] at h; exact absurd h (by simp)
  · rw [if_neg he] at h
    exact runOpt_done_exit data t fuel (initState data.length e) s h

/-- C1 witness: the exit disjunction applied to the one-term model at
`t = 0`, budget `0`, where the run ends by forced exit with plan
`[1]`. -/
theorem C1_witness :
    |(1 : ℝ)| ≤ 0 ∨ ([1] : List ℕ).getD (mOne.length - 1) 0 = (mOne.getD (mOne.length - 1) []).length :=
  C1_exit_disjunction mOne 0 0 2 ⟨[1], [0], [1], 1, 1, 0, 0⟩
    (mtn_mOne 0 0 (by norm_num))

end

noncomputable section

/-! ## Divergence of the optimizer on `mTwo` at `t = 0`, budget 0 (claim C7) -/

theorem step_mTwo_0 :
    step mTwo 0 (initState 2 0) = .next ⟨[0, 0], [1, 0], [1, 0], 1, 1, 0, 0⟩ := by
  norm_num [step, stepCore, initState, mTwo, scanMaxIdx, Real.sqrt_one,
    List.replicate_succ]

theorem step_mTwo_1 :
    step mTwo 0 ⟨[0, 0], [1, 0], [1, 0], 1, 1, 0, 0⟩ =
      .next ⟨[0, 0], [1, 0], [1, 0], 1, 2, 0, 0⟩ := by
  norm_num [step, stepCore, mTwo, scanMaxIdx, Real.sqrt_one]

theorem step_mTwo_2 :
    step mTwo 0 ⟨[0, 0], [1, 0], [1, 0], 1, 2, 0, 0⟩ =
      .next ⟨[1, 0], [0, 0], [1, 0], 1, 3, 0, 0⟩ := by
  norm_num [step, stepCore, mTwo, scanMaxIdx, Real.sqrt_one, List.range_succ]

theorem step_mTwo_loop (k : ℕ) :
    step mTwo 0 ⟨[1, 0], [0, 0], [1, 0], 1, k + 3, 0, 0⟩ =
      .next ⟨[1, 0], [0, 0], [1, 0], 1, k + 3 + 1, 0, 0⟩ := by
  have h1 : ¬ (k + 3 < 2) := by omega
  have h2 : ¬ (k + 3 = 2) := by omega
  have h3 : 2 ≤ k + 3 := by omega
  have h4 : 2 < k + 3 := by omega
  norm_num [step, stepCore, mTwo, scanMaxIdx, Real.sqrt_one, List.range_succ, h1, h2, h3, h4]

theorem runOpt_mTwo_loop : ∀ (fuel k : ℕ),
    runOpt mTwo 0 fuel ⟨[1, 0], [0, 0], [1, 0], 1, k + 3, 0, 0⟩ = .fuelOut := by
  intro fuel
  induction fuel with
  | zero => intro k; rfl
  | succ n ih =>
    intro k
    simp only [runOpt, step_mTwo_loop k]
    exact ih (k + 1)

theorem runOpt_mTwo_2 (fuel : ℕ) :
    runOpt mTwo 0 fuel ⟨[0, 0], [1, 0], [1, 0], 1, 2, 0, 0⟩ = .fuelOut := by
  cases fuel with
  | zero => rfl
  | succ n =>
    simp only [runOpt, step_mTwo_2]
    exact runOpt_mTwo_loop n 0

theorem runOpt_mTwo_1 (fuel : ℕ) :
    runOpt mTwo 0 fuel ⟨[0, 0], [1, 0], [1, 0], 1, 1, 0, 0⟩ = .fuelOut := by
  cases fuel with
  | zero => rfl
  | succ n =>
    simp only [runOpt, step_mTwo_1]
    exact runOpt_mTwo_2 n

theorem runOpt_mTwo_0 (fuel : ℕ) :
    runOpt mTwo 0 fuel (initState 2 0) = .fuelOut := by
  cases fuel with
  | zero => rfl
  | succ n =>
    simp only [runOpt, step_mTwo_0]
    exact runOpt_mTwo_1 n

/-- C7: on the model `[[[1,0,0,0,0,0]], [[1,0,0,0,0,0]]]` (two
non-empty finite blocks) at `t = 0` with `maxError = 0`, the optimizer
loop never terminates: for every amount of fuel the run exhausts it
(from iteration 3 on, the state repeats with only the counter `i`
growing — the bound check `|accuracysSum| = 1 ≤ 0` always fails and the
forced-exit check only watches the last block, which the greedy scan
never selects because its reduction is pinned at 0 by the `t^1 = 0`
weight). -/
theorem C7_nontermination (fuel : ℕ) :
    makeTruncationNums 0 mTwo 0 fuel = .fuelOut := by
  rw [makeTruncationNums, if_neg (by norm_num)]
  exact runOpt_mTwo_0 fuel

end

noncomputable section

/-! ## Trace of the optimizer on the worked example of the spec (C3, C1) -/

/-- The single-block three-term model of the spec's worked scenario. -/
def mC3 : Model := [[⟨10, 0, 0, 0, 0, 0⟩, ⟨3, 0, 0, 0, 0, 0⟩, ⟨1, 0, 0, 0, 0, 0⟩]]

/-- The single-block four-term model used to refute the optimizer
correctness claim. -/
def mFour : Model :=
  [[⟨10, 0, 0, 0, 0, 0⟩, ⟨3, 0, 0, 0, 0, 0⟩, ⟨1, 0, 0, 0, 0, 0⟩, ⟨1, 0, 0, 0, 0, 0⟩]]

theorem scanMaxIdx_one (x : ℝ) : scanMaxIdx 1 [x] = 0 := by
  by_cases h : x > 0 <;> simp [scanMaxIdx, List.range_succ, h]

theorem sqrt2_mul_3_ne_0 : Real.sqrt 2 * 3 ≠ 0 := by
  have h : 0 < Real.sqrt 2 := Real.sqrt_pos.mpr (by norm_num)
  positivity

theorem sqrt2_mul_3_ne_10 : (10 : ℝ) - Real.sqrt 2 * 3 ≠ 0 := by
  have h1 : Real.sqrt 2 ^ 2 = 2 := Real.sq_sqrt (by norm_num)
  have h2 : Real.sqrt 2 ≥ 0 := Real.sqrt_nonneg 2
  nlinarith

theorem step_mC3_0 (e : ℝ) :
    step mC3 0 (initState 1 e) = .next ⟨[0], [10], [10], 10, 1, 0, e⟩ := by
  norm_num [step, stepCore, initState, mC3, scanMaxIdx, Real.sqrt_one]

theorem step_mC3_1 (e : ℝ) :
    step mC3 0 ⟨[0], [10], [10], 10, 1, 0, e⟩ =
      .next ⟨[2], [|10 - Real.sqrt 2 * 3|], [Real.sqrt 2 * 3], Real.sqrt 2 * 3, 2, 0, e⟩ := by
  norm_num [step, stepCore, mC3, scanMaxIdx_one]

theorem step_mC3_2 (e : ℝ) (h1 : |Real.sqrt 3| ≤ e) (h2 : ¬ e < 2 * Real.sqrt 3) :
    step mC3 0 ⟨[2], [|10 - Real.sqrt 2 * 3|], [Real.sqrt 2 * 3], Real.sqrt 2 * 3, 2, 0, e⟩ =
      .done ⟨[3], [|Real.sqrt 2 * 3 - Real.sqrt 3|], [Real.sqrt 3], Real.sqrt 3, 2, 0, e⟩ := by
  norm_num [step, stepCore, mC3, scanMaxIdx_one, estimateMaxError, blockErr, effN,
    List.range_succ, h1, h2, sqrt2_mul_3_ne_0]

theorem mtn_mC3 (e : ℝ) (he : ¬ e < 0) (h1 : |Real.sqrt 3| ≤ e)
    (h2 : ¬ e < 2 * Real.sqrt 3) :
    makeTruncationNums 0 mC3 e 3 = .done
      ⟨[3], [|Real.sqrt 2 * 3 - Real.sqrt 3|], [Real.sqrt 3], Real.sqrt 3, 2, 0, e⟩ := by
  rw [makeTruncationNums, if_neg he]
  have hl : mC3.length = 1 := rfl
  rw [hl]
  show runOpt mC3 0 (0 + 1 + 1 + 1) (initState 1 e) = _
  simp only [runOpt, step_mC3_0, step_mC3_1, step_mC3_2 e h1 h2]

end

noncomputable section

theorem sqrt3_le_two : Real.sqrt 3 ≤ 2 := by
  nlinarith [Real.sq_sqrt (show (0:ℝ) ≤ 3 by norm_num), Real.sqrt_nonneg 3]

theorem one_lt_sqrt3 : 1 < Real.sqrt 3 := by
  nlinarith [Real.sq_sqrt (show (0:ℝ) ≤ 3 by norm_num), Real.sqrt_nonneg 3]

theorem abs_sqrt3 : |Real.sqrt 3| = Real.sqrt 3 := abs_of_nonneg (Real.sqrt_nonneg 3)

/-- C3 counterexample: on the spec's worked model at `t = 0`,
`makeTruncationNums(model, 25)` returns `[3]`, not the claimed `[1]`
(the error-bound exit test only begins at iteration `i > T`, by which
point the single block already holds 3 terms). -/
theorem C3_counterexample :
    planOf (makeTruncationNums 0 mC3 25 3) = some [3] ∧ ([3] : List ℕ) ≠ [1] := by
  have h1 : |Real.sqrt 3| ≤ (25 : ℝ) := by
    rw [abs_sqrt3]; linarith [sqrt3_le_two]
  have h2 : ¬ (25 : ℝ) < 2 * Real.sqrt 3 := by
    push_neg; linarith [sqrt3_le_two]
  rw [mtn_mC3 25 (by norm_num) h1 h2]
  exact ⟨rfl, by simp⟩

/-- C3 amended: at `t = 0` on the worked model,
`makeTruncationNums(model, 25)` and `makeTruncationNums(model, 5)` both
return `[3]`: for a single-block model the loop has already committed 3
terms when the bound is first checked, and it then stops (for budget 25
via the bound test, coinciding with the exhausted block). -/
theorem C3_both_plans :
    planOf (makeTruncationNums 0 mC3 25 3) = some [3] ∧
    planOf (makeTruncationNums 0 mC3 5 3) = some [3] := by
  have h1a : |Real.sqrt 3| ≤ (25 : ℝ) := by
    rw [abs_sqrt3]; linarith [sqrt3_le_two]
  have h2a : ¬ (25 : ℝ) < 2 * Real.sqrt 3 := by
    push_neg; linarith [sqrt3_le_two]
  have h1b : |Real.sqrt 3| ≤ (5 : ℝ) := by
    rw [abs_sqrt3]; linarith [sqrt3_le_two]
  have h2b : ¬ (5 : ℝ) < 2 * Real.sqrt 3 := by
    push_neg; linarith [sqrt3_le_two]
  rw [mtn_mC3 25 (by norm_num) h1a h2a, mtn_mC3 5 (by norm_num) h1b h2b]
  exact ⟨rfl, rfl⟩

/-! ## Trace on the four-term model (C1 counterexample) -/

theorem step_mFour_0 (e : ℝ) :
    step mFour 0 (initState 1 e) = .next ⟨[0], [10], [10], 10, 1, 0, e⟩ := by
  norm_num [step, stepCore, initState, mFour, scanMaxIdx, Real.sqrt_one]

theorem step_mFour_1 (e : ℝ) :
    step mFour 0 ⟨[0], [10], [10], 10, 1, 0, e⟩ =
      .next ⟨[2], [|10 - Real.sqrt 2 * 3|], [Real.sqrt 2 * 3], Real.sqrt 2 * 3, 2, 0, e⟩ := by
  norm_num [step, stepCore, mFour, scanMaxIdx_one]

theorem step_mFour_2 :
    step mFour 0 ⟨[2], [|10 - Real.sqrt 2 * 3|], [Real.sqrt 2 * 3], Real.sqrt 2 * 3, 2, 0, 2⟩ =
      .done ⟨[3], [|Real.sqrt 2 * 3 - Real.sqrt 3|], [Real.sqrt 3], Real.sqrt 3, 2, 0,
        2 - (2 * Real.sqrt 3 - 2) * 4 / 3⟩ := by
  have h1 : |Real.sqrt 3| ≤ (2 : ℝ) := by rw [abs_sqrt3]; exact sqrt3_le_two
  have h2 : (2 : ℝ) < 2 * Real.sqrt 3 := by linarith [one_lt_sqrt3]
  norm_num [step, stepCore, mFour, scanMaxIdx_one, estimateMaxError, blockErr, effN,
    List.range_succ, h1, h2, sqrt2_mul_3_ne_0]

theorem mtn_mFour :
    makeTruncationNums 0 mFour 2 3 = .done
      ⟨[3], [|Real.sqrt 2 * 3 - Real.sqrt 3|], [Real.sqrt 3], Real.sqrt 3, 2, 0,
        2 - (2 * Real.sqrt 3 - 2) * 4 / 3⟩ := by
  rw [makeTruncationNums, if_neg (by norm_num)]
  have hl : mFour.length = 1 := rfl
  rw [hl]
  show runOpt mFour 0 (0 + 1 + 1 + 1) (initState 1 2) = _
  simp only [runOpt, step_mFour_0, step_mFour_1, step_mFour_2]

/-- C1 counterexample: on the single-block four-term model
`[[10,3,1,1]]` at `t = 0` with `maxError = 2`, `makeTruncationNums`
returns `[3]`, yet `estimateMaxError(model, [3]) = 2*sqrt(3) > 2` and
the only block does not use all of its 4 terms — so neither disjunct of
the claimed correctness property holds. -/
theorem C1_counterexample :
    planOf (makeTruncationNums 0 mFour 2 3) = some [3] ∧
    2 < estimateMaxError 0 mFour (some [some 3]) ∧
    ([3] : List ℕ).getD 0 0 ≠ (mFour.getD 0 []).length := by
  refine ⟨?_, ?_, by norm_num [mFour]⟩
  · rw [mtn_mFour]; rfl
  · have hest : estimateMaxError 0 mFour (some [some 3]) = 2 * Real.sqrt 3 := by
      norm_num [estimateMaxError, blockErr, effN, mFour, List.range_succ]
    rw [hest]
    linarith [one_lt_sqrt3]

end

noncomputable section

/-! ## The dead `maximumError` adjustment (claim C9) -/

theorem stepNA_cases (data : Model) (t : ℝ) (s : OptState) :
    (stepNA data t s = .crash ∧ step data t s = .crash) ∨
    (∃ s1, stepNA data t s = .next s1 ∧ step data t s = .next s1) ∨
    (∃ s1 s2, stepNA data t s = .done s1 ∧ step data t s = .done s2 ∧
      s1.tNums = s2.tNums) := by
  cases hc : stepCore data t s with
  | none =>
    left
    constructor <;> simp [step, stepNA, hc]
  | some m =>
    by_cases h1 : data.length < s.i ∧ |m.accSum2| ≤ s.maxErr
    · right; right
      refine ⟨⟨m.tNums3, m.reds2, m.accs1, m.accSum2, s.i, m.item, s.maxErr⟩,
        ⟨m.tNums3, m.reds2, m.accs1, m.accSum2, s.i, m.item,
          if s.maxErr < estimateMaxError t data (some (m.tNums3.map some)) then
            s.maxErr - (estimateMaxError t data (some (m.tNums3.map some)) - s.maxErr) * 4 / 3
          else s.maxErr⟩, ?_, ?_, rfl⟩
      · rw [stepNA, hc]; dsimp only; rw [if_pos h1]
      · rw [step, hc]; dsimp only; rw [if_pos h1]
    · by_cases h2 :
        m.tNums3.getD (data.length - 1) 0 = (data.getD (data.length - 1) []).length
      · right; right
        refine ⟨⟨m.tNums3, m.reds2, m.accs1, m.accSum2, s.i, m.item, s.maxErr⟩,
          ⟨m.tNums3, m.reds2, m.accs1, m.accSum2, s.i, m.item, s.maxErr⟩, ?_, ?_, rfl⟩
        · rw [stepNA, hc]; dsimp only; rw [if_neg h1, if_pos h2]
        · rw [step, hc]; dsimp only; rw [if_neg h1, if_pos h2]
      · right; left
        refine ⟨⟨m.tNums3, m.reds2, m.accs1, m.accSum2, s.i + 1, m.nextItem, s.maxErr⟩,
          ?_, ?_⟩
        · rw [stepNA, hc]; dsimp only; rw [if_neg h1, if_neg h2]
        · rw [step, hc]; dsimp only; rw [if_neg h1, if_neg h2]

theorem runOptNA_plan (data : Model) (t : ℝ) :
    ∀ (fuel : ℕ) (s : OptState),
      planOf (runOptNA data t fuel s) = planOf (runOpt data t fuel s) := by
  intro fuel
  induction fuel with
  | zero => intro s; rfl
  | succ n ih =>
    intro s
    rcases stepNA_cases data t s with ⟨h1, h2⟩ | ⟨s1, h1, h2⟩ | ⟨s1, s2, h1, h2, h3⟩
    · simp [runOpt, runOptNA, h1, h2]
    · simp only [runOpt, runOptNA, h1, h2]
      exact ih s1
    · simp [runOpt, runOptNA, h1, h2, planOf, h3]

/-- C9 confirmed: the post-termination `maximumError` adjustment
(`maximumError -= (trueMaxError - maximumError) * 4 / 3`) writes a
local variable immediately before the `break`, so the plan returned by
`makeTruncationNums` is identical to the plan returned by the otherwise
identical variant with the adjustment removed, for every model, time,
budget and fuel. -/
theorem C9_adjustment_dead (t : ℝ) (data : Model) (e : ℝ) (fuel : ℕ) :
    planOf (makeTruncationNumsNA t data e fuel) =
      planOf (makeTruncationNums t data e fuel) := by
  rw [makeTruncationNums, makeTruncationNumsNA]
  by_cases he : e < 0
  · rw [if_pos he, if_pos he]
  · rw [if_neg he, if_neg he]
    exact runOptNA_plan data t fuel (initState data.length e)

end

noncomputable section

/-! ## Shape invariant of the optimizer loop (claim C10) -/

/-- The length of block `k` of a model. -/
def blkLen (data : Model) (k : ℕ) : ℕ := (data.getD k []).length

theorem getD_of_getElem2 {α : Type} (l : List α) (i : ℕ) (d x : α) (h : l[i]? = some x) :
    l.getD i d = x := by
  rw [List.getD_eq_getElem?_getD, h]
  rfl

theorem getD_replicate0 (n k : ℕ) : (List.replicate n (0 : ℕ)).getD k 0 = 0 := by
  rw [List.getD_eq_getElem?_getD]
  rcases h : (List.replicate n (0 : ℕ))[k]? with _ | x
  · rfl
  · have hx := List.getElem?_mem h
    rw [List.eq_of_mem_replicate hx]
    rfl

theorem scanMaxIdx_lt (T : ℕ) (hT : 1 ≤ T) (reds : List ℝ) : scanMaxIdx T reds < T := by
  have h : ∀ (l : List ℕ) (acc : ℝ × ℕ), (∀ j ∈ l, j < T) → acc.2 < T →
      ((l.foldl
        (fun acc j => if reds.getD j 0 > acc.1 then (reds.getD j 0, j) else acc)
        acc).2 < T) := by
    intro l
    induction l with
    | nil => intro acc _ h2; exact h2
    | cons a l ih =>
      intro acc hmem h2
      simp only [List.foldl_cons]
      apply ih
      · intro j hj
        exact hmem j (List.mem_cons_of_mem a hj)
      · by_cases hcond : reds.getD a 0 > acc.1
        · rw [if_pos hcond]
          exact hmem a (List.mem_cons_self a l)
        · rw [if_neg hcond]
          exact h2
  exact h (List.range T) (0, 0) (fun j hj => List.mem_range.mp hj) hT

theorem bump_shape (data : Model) (tNums2 : List ℕ) (nextItem : ℕ)
    (hlen : tNums2.length = data.length) (hni : nextItem < data.length)
    (H2 : ∀ k, k < data.length → tNums2.getD k 0 + 1 ≤ blkLen data k) :
    (tNums2.set nextItem (tNums2.getD nextItem 0 + 1)).length = data.length ∧
    (∀ k, k < data.length →
      (tNums2.set nextItem (tNums2.getD nextItem 0 + 1)).getD k 0 ≤ blkLen data k) ∧
    (∀ k, k < data.length →
      (tNums2.set nextItem (tNums2.getD nextItem 0 + 1)).getD k 0 = blkLen data k →
        k = nextItem) := by
  refine ⟨by rw [List.length_set, hlen], ?_, ?_⟩
  · intro k hk
    by_cases hkn : k = nextItem
    · subst hkn
      rw [getD_set_self _ _ _ _ (by rw [hlen]; exact hk)]
      exact H2 k hk
    · rw [getD_set_ne _ _ _ _ _ (fun h => hkn h.symm)]
      have := H2 k hk
      omega
  · intro k hk heq
    by_cases hkn : k = nextItem
    · exact hkn
    · exfalso
      rw [getD_set_ne _ _ _ _ _ (fun h => hkn h.symm)] at heq
      have := H2 k hk
      omega

theorem stepCore_nil (t : ℝ) (s : OptState) : stepCore [] t s = none := by
  rw [stepCore]
  simp

theorem planOf_runOpt_nil (t : ℝ) : ∀ (fuel : ℕ) (s : OptState),
    planOf (runOpt [] t fuel s) = none := by
  intro fuel s
  cases fuel with
  | zero => rfl
  | succ n =>
    rw [runOpt, step, stepCore_nil]
    rfl

end

noncomputable section

theorem stepCore_shape (data : Model) (t : ℝ) (s : OptState) (m : StepMid)
    (hne : ∀ k, k < data.length → 1 ≤ blkLen data k)
    (h1 : s.tNums.length = data.length)
    (h2 : s.item < data.length)
    (h3 : ∀ k, k < data.length → s.tNums.getD k 0 ≤ blkLen data k)
    (h4 : ∀ k, k < data.length → s.tNums.getD k 0 = blkLen data k → k = s.item)
    (h5 : s.i ≤ data.length → ∀ k, k < data.length → s.tNums.getD k 0 = 0)
    (hc : stepCore data t s = some m) :
    m.tNums3.length = data.length ∧
    m.nextItem < data.length ∧
    (∀ k, k < data.length → m.tNums3.getD k 0 ≤ blkLen data k) ∧
    (∀ k, k < data.length → m.tNums3.getD k 0 = blkLen data k → k = m.nextItem) ∧
    (s.i < data.length → m.tNums3 = s.tNums) := by
  rcases Nat.lt_trichotomy s.i data.length with hi | hi | hi
  · -- seeding pass: i < T, no plan entry changes
    rw [stepCore] at hc
    dsimp only at hc
    simp only [if_neg (show ¬ s.i = data.length by omega), if_pos hi,
      Nat.mod_eq_of_lt hi] at hc
    cases hget : data[s.i]? with
    | none => rw [hget] at hc; simp at hc
    | some block =>
      rw [hget] at hc
      dsimp only at hc
      have hbl : data.getD s.i [] = block := getD_of_getElem2 data s.i [] block hget
      have hcnt : s.tNums.getD s.i 0 = 0 := h5 (by omega) s.i hi
      rw [hcnt] at hc
      simp only [if_neg (show ¬ (block.length ≤ 0) by
        have := hne s.i hi; rw [blkLen, hbl] at this; omega)] at hc
      simp only [Nat.add_sub_cancel] at hc
      cases htm : block[0]? with
      | none => rw [htm] at hc; simp at hc
      | some tm =>
        rw [htm] at hc
        dsimp only at hc
        simp only [if_neg (show ¬ data.length ≤ s.i by omega)] at hc
        simp only [Option.some.injEq] at hc
        subst hc
        refine ⟨h1, by show 0 < data.length; omega, ?_, ?_, fun _ => rfl⟩
        · intro k hk
          rw [h5 (by omega) k hk]
          exact Nat.zero_le _
        · intro k hk heq
          exfalso
          rw [h5 (by omega) k hk] at heq
          have := hne k hk
          omega
  · -- the i = T transition: item forced to 0 and tNums[0] pre-incremented
    have hT1 : 1 ≤ data.length := by omega
    rw [stepCore] at hc
    dsimp only at hc
    simp only [if_pos hi, if_neg (show ¬ s.i < data.length by omega)] at hc
    have h50 : s.tNums.getD 0 0 = 0 := h5 (by omega) 0 (by omega)
    rw [h50] at hc
    rw [getD_set_self s.tNums 0 (0 + 1) 0 (by rw [h1]; omega)] at hc
    simp only [Nat.zero_add] at hc
    cases hget : data[0]? with
    | none => rw [hget] at hc; simp at hc
    | some block =>
      rw [hget] at hc
      dsimp only at hc
      have hbl : data.getD 0 [] = block := getD_of_getElem2 data 0 [] block hget
      have hlen0 : 1 ≤ block.length := by
        have := hne 0 (by omega)
        rw [blkLen, hbl] at this
        exact this
      by_cases hroll : block.length ≤ 1
      · simp only [if_pos hroll] at hc
        simp only [Nat.sub_self] at hc
        cases htm : block[0]? with
        | none => rw [htm] at hc; simp at hc
        | some tm =>
          rw [htm] at hc
          dsimp only at hc
          simp only [if_pos (show data.length ≤ s.i by omega)] at hc
          simp only [Option.some.injEq] at hc
          subst hc
          have hl2 : ((s.tNums.set 0 1).set 0 0).length = data.length := by
            rw [List.length_set, List.length_set, h1]
          have H2 : ∀ k, k < data.length →
              ((s.tNums.set 0 1).set 0 0).getD k 0 + 1 ≤ blkLen data k := by
            intro k hk
            by_cases hk0 : k = 0
            · subst hk0
              rw [getD_set_self _ _ _ _ (by rw [List.length_set, h1]; omega)]
              have : blkLen data 0 = block.length := by rw [blkLen, hbl]
              omega
            · rw [getD_set_ne _ _ _ _ _ (fun h => hk0 h.symm),
                getD_set_ne _ _ _ _ _ (fun h => hk0 h.symm), h5 (by omega) k hk]
              have := hne k hk
              omega
          refine ⟨?_, scanMaxIdx_lt data.length hT1 _, ?_, ?_,
            fun hcon => absurd hcon (by omega)⟩
          · exact (bump_shape data _ _ hl2 (scanMaxIdx_lt data.length hT1 _) H2).1
          · exact (bump_shape data _ _ hl2 (scanMaxIdx_lt data.length hT1 _) H2).2.1
          · exact (bump_shape data _ _ hl2 (scanMaxIdx_lt data.length hT1 _) H2).2.2
      · simp only [if_neg hroll] at hc
        simp only [Nat.add_sub_cancel] at hc
        cases htm : block[1]? with
        | none => rw [htm] at hc; simp at hc
        | some tm =>
          rw [htm] at hc
          dsimp only at hc
          simp only [if_pos (show data.length ≤ s.i by omega)] at hc
          simp only [Option.some.injEq] at hc
          subst hc
          have hl2 : (s.tNums.set 0 1).length = data.length := by
            rw [List.length_set, h1]
          have H2 : ∀ k, k < data.length →
              (s.tNums.set 0 1).getD k 0 + 1 ≤ blkLen data k := by
            intro k hk
            by_cases hk0 : k = 0
            · subst hk0
              rw [getD_set_self _ _ _ _ (by rw [h1]; omega)]
              have : blkLen data 0 = block.length := by rw [blkLen, hbl]
              omega
            · rw [getD_set_ne _ _ _ _ _ (fun h => hk0 h.symm), h5 (by omega) k hk]
              have := hne k hk
              omega
          refine ⟨?_, scanMaxIdx_lt data.length hT1 _, ?_, ?_,
            fun hcon => absurd hcon (by omega)⟩
          · exact (bump_shape data _ _ hl2 (scanMaxIdx_lt data.length hT1 _) H2).1
          · exact (bump_shape data _ _ hl2 (scanMaxIdx_lt data.length hT1 _) H2).2.1
          · exact (bump_shape data _ _ hl2 (scanMaxIdx_lt data.length hT1 _) H2).2.2
  · -- greedy pass: i > T
    rw [stepCore] at hc
    dsimp only at hc
    simp only [if_neg (show ¬ s.i = data.length by omega),
      if_neg (show ¬ s.i < data.length by omega)] at hc
    cases hget : data[s.item]? with
    | none => rw [hget] at hc; simp at hc
    | some block =>
      rw [hget] at hc
      dsimp only at hc
      have hbl : data.getD s.item [] = block := getD_of_getElem2 data s.item [] block hget
      have hblk : block.length = blkLen data s.item := by rw [blkLen, hbl]
      have hcle : s.tNums.getD s.item 0 ≤ blkLen data s.item := h3 s.item h2
      have hstrict : ∀ k, k < data.length → k ≠ s.item →
          s.tNums.getD k 0 < blkLen data k := by
        intro k hk hki
        rcases lt_or_eq_of_le (h3 k hk) with h | h
        · exact h
        · exact absurd (h4 k hk h) hki
      by_cases hroll : block.length ≤ s.tNums.getD s.item 0
      · simp only [if_pos hroll] at hc
        cases htm : block[s.tNums.getD s.item 0 - 1]? with
        | none => rw [htm] at hc; simp at hc
        | some tm =>
          rw [htm] at hc
          dsimp only at hc
          simp only [if_pos (show data.length ≤ s.i by omega)] at hc
          simp only [Option.some.injEq] at hc
          subst hc
          have hl2 : (s.tNums.set s.item (s.tNums.getD s.item 0 - 1)).length =
              data.length := by
            rw [List.length_set, h1]
          have H2 : ∀ k, k < data.length →
              (s.tNums.set s.item (s.tNums.getD s.item 0 - 1)).getD k 0 + 1 ≤
                blkLen data k := by
            intro k hk
            by_cases hki : k = s.item
            · subst hki
              rw [getD_set_self _ _ _ _ (by rw [h1]; exact h2)]
              have := hne s.item h2
              omega
            · rw [getD_set_ne _ _ _ _ _ (fun h => hki h.symm)]
              have := hstrict k hk hki
              omega
          refine ⟨?_, scanMaxIdx_lt data.length (by omega) _, ?_, ?_,
            fun hcon => absurd hcon (by omega)⟩
          · exact (bump_shape data _ _ hl2 (scanMaxIdx_lt data.length (by omega) _) H2).1
          · exact (bump_shape data _ _ hl2 (scanMaxIdx_lt data.length (by omega) _) H2).2.1
          · exact (bump_shape data _ _ hl2 (scanMaxIdx_lt data.length (by omega) _) H2).2.2
      · simp only [if_neg hroll] at hc
        simp only [Nat.add_sub_cancel] at hc
        cases htm : block[s.tNums.getD s.item 0]? with
        | none => rw [htm] at hc; simp at hc
        | some tm =>
          rw [htm] at hc
          dsimp only at hc
          simp only [if_pos (show data.length ≤ s.i by omega)] at hc
          simp only [Option.some.injEq] at hc
          subst hc
          have H2 : ∀ k, k < data.length →
              s.tNums.getD k 0 + 1 ≤ blkLen data k := by
            intro k hk
            by_cases hki : k = s.item
            · subst hki
              omega
            · have := hstrict k hk hki
              omega
          refine ⟨?_, scanMaxIdx_lt data.length (by omega) _, ?_, ?_,
            fun hcon => absurd hcon (by omega)⟩
          · exact (bump_shape data _ _ h1 (scanMaxIdx_lt data.length (by omega) _) H2).1
          · exact (bump_shape data _ _ h1 (scanMaxIdx_lt data.length (by omega) _) H2).2.1
          · exact (bump_shape data _ _ h1 (scanMaxIdx_lt data.length (by omega) _) H2).2.2

end

noncomputable section

theorem step_shape_next (data : Model) (t : ℝ) (s s1 : OptState)
    (hne : ∀ k, k < data.length → 1 ≤ blkLen data k)
    (h1 : s.tNums.length = data.length)
    (h2 : s.item < data.length)
    (h3 : ∀ k, k < data.length → s.tNums.getD k 0 ≤ blkLen data k)
    (h4 : ∀ k, k < data.length → s.tNums.getD k 0 = blkLen data k → k = s.item)
    (h5 : s.i ≤ data.length → ∀ k, k < data.length → s.tNums.getD k 0 = 0)
    (h : step data t s = .next s1) :
    s1.tNums.length = data.length ∧
    s1.item < data.length ∧
    (∀ k, k < data.length → s1.tNums.getD k 0 ≤ blkLen data k) ∧
    (∀ k, k < data.length → s1.tNums.getD k 0 = blkLen data k → k = s1.item) ∧
    (s1.i ≤ data.length → ∀ k, k < data.length → s1.tNums.getD k 0 = 0) := by
  cases hc : stepCore data t s with
  | none => rw [step, hc] at h; exact absurd h (by simp)
  | some m =>
    obtain ⟨c1, c2, c3, c4, c5⟩ := stepCore_shape data t s m hne h1 h2 h3 h4 h5 hc
    rw [step, hc] at h
    dsimp only at h
    by_cases hb : data.length < s.i ∧ |m.accSum2| ≤ s.maxErr
    · rw [if_pos hb] at h; exact absurd h (by simp)
    · rw [if_neg hb] at h
      by_cases hf :
          m.tNums3.getD (data.length - 1) 0 = (data.getD (data.length - 1) []).length
      · rw [if_pos hf] at h; exact absurd h (by simp)
      · rw [if_neg hf] at h
        simp only [StepRes.next.injEq] at h
        subst h
        refine ⟨c1, c2, c3, c4, ?_⟩
        intro hle k hk
        show m.tNums3.getD k 0 = 0
        have hsi : s.i < data.length := by
          have : s.i + 1 ≤ data.length := hle
          omega
        rw [c5 hsi]
        exact h5 (by omega) k hk

theorem step_shape_done (data : Model) (t : ℝ) (s s1 : OptState)
    (hne : ∀ k, k < data.length → 1 ≤ blkLen data k)
    (h1 : s.tNums.length = data.length)
    (h2 : s.item < data.length)
    (h3 : ∀ k, k < data.length → s.tNums.getD k 0 ≤ blkLen data k)
    (h4 : ∀ k, k < data.length → s.tNums.getD k 0 = blkLen data k → k = s.item)
    (h5 : s.i ≤ data.length → ∀ k, k < data.length → s.tNums.getD k 0 = 0)
    (h : step data t s = .done s1) :
    s1.tNums.length = data.length ∧
    (∀ k, k < data.length → s1.tNums.getD k 0 ≤ blkLen data k) := by
  cases hc : stepCore data t s with
  | none => rw [step, hc] at h; exact absurd h (by simp)
  | some m =>
    obtain ⟨c1, c2, c3, c4, c5⟩ := stepCore_shape data t s m hne h1 h2 h3 h4 h5 hc
    rw [step, hc] at h
    dsimp only at h
    by_cases hb : data.length < s.i ∧ |m.accSum2| ≤ s.maxErr
    · rw [if_pos hb] at h
      simp only [StepRes.done.injEq] at h
      subst h
      exact ⟨c1, c3⟩
    · rw [if_neg hb] at h
      by_cases hf :
          m.tNums3.getD (data.length - 1) 0 = (data.getD (data.length - 1) []).length
      · rw [if_pos hf] at h
        simp only [StepRes.done.injEq] at h
        subst h
        exact ⟨c1, c3⟩
      · rw [if_neg hf] at h
        exact absurd h (by simp)

theorem runOpt_shape (data : Model) (t : ℝ)
    (hne : ∀ k, k < data.length → 1 ≤ blkLen data k) :
    ∀ (fuel : ℕ) (s s1 : OptState),
      s.tNums.length = data.length → s.item < data.length →
      (∀ k, k < data.length → s.tNums.getD k 0 ≤ blkLen data k) →
      (∀ k, k < data.length → s.tNums.getD k 0 = blkLen data k → k = s.item) →
      (s.i ≤ data.length → ∀ k, k < data.length → s.tNums.getD k 0 = 0) →
      runOpt data t fuel s = .done s1 →
      s1.tNums.length = data.length ∧
      (∀ k, k < data.length → s1.tNums.getD k 0 ≤ blkLen data k) := by
  intro fuel
  induction fuel with
  | zero => intro s s1 _ _ _ _ _ h; exact absurd h (by simp [runOpt])
  | succ n ih =>
    intro s s1 h1 h2 h3 h4 h5 h
    rw [runOpt] at h
    cases hstep : step data t s with
    | crash => rw [hstep] at h; exact absurd h (by simp)
    | done s2 =>
      rw [hstep] at h
      simp only [RunRes.done.injEq] at h
      subst h
      exact step_shape_done data t s _ hne h1 h2 h3 h4 h5 hstep
    | next s2 =>
      rw [hstep] at h
      obtain ⟨g1, g2, g3, g4, g5⟩ :=
        step_shape_next data t s s2 hne h1 h2 h3 h4 h5 hstep
      exact ih s2 s1 g1 g2 g3 g4 g5 h

/-- C10 confirmed: for every model whose blocks are all non-empty, any
plan returned by `makeTruncationNums` has exactly one entry per block
and every entry is between 0 and the corresponding block's length
(entries are naturals, so non-negativity and definedness are inherent
to the count of entries being the block count). -/
theorem C10_plan_shape (data : Model) (t e : ℝ) (fuel : ℕ) (p : List ℕ)
    (hblocks : ∀ b ∈ data, b ≠ [])
    (h : planOf (makeTruncationNums t data e fuel) = some p) :
    p.length = data.length ∧
    ∀ k, k < data.length → p.getD k 0 ≤ (data.getD k []).length := by
  rw [makeTruncationNums] at h
  by_cases he : e < 0
  · rw [if_pos he] at h
    exact absurd h (by simp [planOf])
  · rw [if_neg he] at h
    rcases data with _ | ⟨b, bs⟩
    · rw [planOf_runOpt_nil] at h
      exact absurd h (by simp)
    · have hne : ∀ k, k < (b :: bs).length → 1 ≤ blkLen (b :: bs) k := by
        intro k hk
        have hmem : (b :: bs).getD k [] ∈ b :: bs := by
          rw [List.getD_eq_getElem (b :: bs) [] hk]
          exact List.getElem_mem hk
        have hne2 := hblocks _ hmem
        rw [blkLen]
        exact List.length_pos.mpr hne2
      cases hr : runOpt (b :: bs) t fuel (initState (b :: bs).length e) with
      | fuelOut => rw [hr] at h; exact absurd h (by simp [planOf])
      | crash => rw [hr] at h; exact absurd h (by simp [planOf])
      | done s1 =>
        rw [hr] at h
        simp only [planOf, Option.some.injEq] at h
        subst h
        have hrun := runOpt_shape (b :: bs) t hne fuel (initState (b :: bs).length e) s1
          (by simp [initState])
          (by simp [initState])
          (fun k _ => by simp [initState, getD_replicate0])
          (fun k hk heq => by
            exfalso
            rw [initState] at heq
            dsimp only at heq
            rw [getD_replicate0] at heq
            have := hne k hk
            omega)
          (fun _ k _ => by simp [initState, getD_replicate0])
          hr
        exact ⟨hrun.1, hrun.2⟩

/-- C10 witness: the shape property applied to the one-term model at
`t = 0`, budget 0, fuel 2, whose returned plan is `[1]`. -/
theorem C10_witness :
    ([1] : List ℕ).length = mOne.length ∧
    ([1] : List ℕ).getD 0 0 ≤ (mOne.getD 0 []).length :=
  ⟨(C10_plan_shape mOne 0 0 2 [1] (by simp [mOne]) (planOf_mOne 0 0 (by norm_num))).1,
   (C10_plan_shape mOne 0 0 2 [1] (by simp [mOne]) (planOf_mOne 0 0 (by norm_num))).2 0
     (by simp [mOne])⟩

end

noncomputable section

/-! ## The temporal averager mutates the calculator's jdr (claim C6) -/

theorem meanLoop_mOne (e : ℝ) (he : ¬ e < 0) :
    ∀ (r i c : ℕ) (tc : ℝ), 1 ≤ r →
      meanLoop mOne e 2 i r [c] tc =
        some ([c + r], jdec (260732 + (i + r - 1) * meanSpan)) := by
  intro r
  induction r with
  | zero => intro i c tc h; exact absurd h (by omega)
  | succ n ih =>
    intro i c tc _
    rw [meanLoop, planOf_mOne _ e he]
    dsimp only
    cases n with
    | zero =>
      rw [meanLoop]
      norm_num [addPlans]
    | succ nn =>
      rw [show addPlans [c] [1] = [c + 1] from rfl]
      rw [ih (i + 1) (c + 1) _ (by omega)]
      have hsum : c + 1 + (nn + 1) = c + (nn + 1 + 1) := by omega
      rw [hsum]
      simp only [Option.some.injEq, Prod.mk.injEq]
      refine ⟨trivial, ?_⟩
      congr 1
      push_cast
      ring

theorem makeMean_mOne (e : ℝ) (he : ¬ e < 0) (t0 : ℝ) :
    makeMeanTruncationNums mOne e 2 t0 = some ([1], jdec (260732 + 99 * meanSpan)) := by
  rw [makeMeanTruncationNums]
  show (meanLoop mOne e 2 0 (99 + 1) [] t0).map _ = _
  rw [meanLoop, planOf_mOne _ e he]
  dsimp only
  rw [show addPlans [] [1] = [0 + 1] from rfl]
  rw [show (0 : ℕ) + 1 = 1 from rfl]
  rw [meanLoop_mOne e he 99 1 1 _ (by omega)]
  norm_num

/-- C6 counterexample: on the one-term model with the calculator's time
context at `t = 0`, `makeMeanTruncationNums` returns with the
calculator's `jdr` set to the 100th sample's time (about 38.997 Julian
centuries after J2000), not the caller's original `t = 0` — the operation
mutates the observable time context. -/
theorem C6_counterexample :
    makeMeanTruncationNums mOne 0 2 0 = some ([1], jdec (260732 + 99 * meanSpan)) ∧
    jdec (260732 + 99 * meanSpan) ≠ 0 := by
  refine ⟨makeMean_mOne 0 (by norm_num) 0, ?_⟩
  rw [jdec, meanSpan]
  norm_num

theorem meanLoop_last (data : Model) (e : ℝ) (fuel : ℕ) :
    ∀ (r i : ℕ) (sums : List ℕ) (tc : ℝ) (pr : List ℕ × ℝ), 1 ≤ r →
      meanLoop data e fuel i r sums tc = some pr →
      pr.2 = jdec (260732 + (i + r - 1) * meanSpan) := by
  intro r
  induction r with
  | zero => intro i sums tc pr h; exact absurd h (by omega)
  | succ n ih =>
    intro i sums tc pr _ h
    rw [meanLoop] at h
    cases hm : planOf (makeTruncationNums (jdec (260732 + i * meanSpan)) data e fuel) with
    | none => rw [hm] at h; exact absurd h (by simp)
    | some p =>
      rw [hm] at h
      dsimp only at h
      cases n with
      | zero =>
        rw [meanLoop] at h
        simp only [Option.some.injEq] at h
        subst h
        norm_num
      | succ nn =>
        have := ih (i + 1) (addPlans sums p) _ pr (by omega) h
        rw [this]
        congr 1
        push_cast
        ring

/-- C6 amended: `calc`, `estimateMaxError` and `makeTruncationNums`
only read the calculator's time context, but `makeMeanTruncationNums`
(and therefore `makeSafeTruncationNums`) reassigns `this.jdr` on every
sample and returns with the context set to the last sample's time
(jd 260732 + 99*(3912458-260732)/100), so the caller-observable `jdr`
differs after the call whenever the caller's original time is not that
constant. -/
theorem C6_jdr_mutated (data : Model) (e : ℝ) (fuel : ℕ) (t0 : ℝ) (p : List ℕ) (t1 : ℝ)
    (h : makeMeanTruncationNums data e fuel t0 = some (p, t1))
    (h0 : t0 ≠ jdec (260732 + 99 * meanSpan)) :
    t1 = jdec (260732 + 99 * meanSpan) ∧ t1 ≠ t0 := by
  rw [makeMeanTruncationNums] at h
  cases hml : meanLoop data e fuel 0 100 [] t0 with
  | none => rw [hml] at h; exact absurd h (by simp)
  | some pr =>
    rw [hml] at h
    simp only [Option.map_some', Option.some.injEq, Prod.mk.injEq] at h
    obtain ⟨hp, ht⟩ := h
    have h2 := meanLoop_last data e fuel 100 0 [] t0 pr (by omega) hml
    have h3 : t1 = jdec (260732 + 99 * meanSpan) := by
      rw [← ht, h2]
      congr 1
      push_cast
      ring
    exact ⟨h3, fun hcon => h0 (hcon.symm.trans h3)⟩

end

noncomputable section

/-- C6 witness: the amended jdr statement applied to the one-term
model starting at `t = 0`. -/
theorem C6_witness :
    jdec (260732 + 99 * meanSpan) = jdec (260732 + 99 * meanSpan) ∧
    jdec (260732 + 99 * meanSpan) ≠ 0 :=
  C6_jdr_mutated mOne 0 2 0 [1] (jdec (260732 + 99 * meanSpan))
    (makeMean_mOne 0 (by norm_num) 0)
    (by rw [jdec, meanSpan]; norm_num)

/-! ## The safety refiner's bounded retry loop (claim C8) -/

theorem stageOK_zero_iff (data : Model) (fuel : ℕ) (e t : ℝ) (p : List ℕ) (t1 : ℝ)
    (hm : makeMeanTruncationNums data e fuel t = some (p, t1)) :
    stageOK data fuel 0 e t ↔ estimateMaxError t1 data (some (p.map some)) ≤ e := by
  constructor
  · rintro ⟨pr, hs, he2⟩
    rw [safeStage, hm] at hs
    simp only [Option.some.injEq] at hs
    subst hs
    rwa [pow_zero, div_one] at he2
  · intro hle
    exact ⟨(p, t1), by rw [safeStage]; exact hm, by rw [pow_zero, div_one]; exact hle⟩

theorem stageOK_succ_iff (data : Model) (fuel j : ℕ) (e t : ℝ) (p : List ℕ) (t1 : ℝ)
    (hm : makeMeanTruncationNums data e fuel t = some (p, t1)) :
    stageOK data fuel (j + 1) e t ↔ stageOK data fuel j (e / 2) t1 := by
  have hstage : ∀ pr : List ℕ × ℝ,
      safeStage data fuel (j + 1) e t = some pr ↔
        safeStage data fuel j (e / 2) t1 = some pr := by
    intro pr
    rw [safeStage, hm]
  have hdiv : e / 2 ^ (j + 1) = e / 2 / 2 ^ j := by
    rw [pow_succ]
    ring
  constructor
  · rintro ⟨pr, hs, he2⟩
    exact ⟨pr, (hstage pr).mp hs, by rwa [hdiv] at he2⟩
  · rintro ⟨pr, hs, he2⟩
    exact ⟨pr, (hstage pr).mpr hs, by rwa [← hdiv] at he2⟩

theorem safeGo_char (data : Model) (fuel : ℕ) :
    ∀ (n : ℕ) (e t : ℝ) (pr : List ℕ × ℝ),
      safeGo data fuel (n + 1) e t = some pr →
      ∃ k, k ≤ n ∧ safeStage data fuel k e t = some pr ∧
        (∀ j, j < k → ¬ stageOK data fuel j e t) ∧
        (stageOK data fuel k e t ∨ k = n) := by
  intro n
  induction n with
  | zero =>
    intro e t pr h
    rw [safeGo] at h
    cases hm : makeMeanTruncationNums data e fuel t with
    | none => rw [hm] at h; exact absurd h (by simp)
    | some pr2 =>
      obtain ⟨p, t1⟩ := pr2
      rw [hm] at h
      dsimp only at h
      by_cases hcmp : e < estimateMaxError t1 data (some (p.map some))
      · rw [if_pos hcmp] at h
        simp only [Option.some.injEq] at h
        subst h
        refine ⟨0, le_rfl, by rw [safeStage]; exact hm, fun j hj => absurd hj (by omega),
          Or.inr rfl⟩
      · rw [if_neg hcmp] at h
        simp only [Option.some.injEq] at h
        subst h
        refine ⟨0, le_rfl, by rw [safeStage]; exact hm, fun j hj => absurd hj (by omega),
          Or.inl ?_⟩
        rw [stageOK_zero_iff data fuel e t p t1 hm]
        linarith [not_lt.mp hcmp]
  | succ n ih =>
    intro e t pr h
    rw [safeGo] at h
    cases hm : makeMeanTruncationNums data e fuel t with
    | none => rw [hm] at h; exact absurd h (by simp)
    | some pr2 =>
      obtain ⟨p, t1⟩ := pr2
      rw [hm] at h
      dsimp only at h
      by_cases hcmp : e < estimateMaxError t1 data (some (p.map some))
      · rw [if_pos hcmp] at h
        obtain ⟨k, hk, hstage, hfail, hlast⟩ := ih (e / 2) t1 pr h
        refine ⟨k + 1, by omega, by rw [safeStage, hm]; exact hstage, ?_, ?_⟩
        · intro j hj
          cases j with
          | zero =>
            rw [stageOK_zero_iff data fuel e t p t1 hm]
            intro hle
            linarith
          | succ j2 =>
            rw [stageOK_succ_iff data fuel j2 e t p t1 hm]
            exact hfail j2 (by omega)
        · rcases hlast with hOK | heq
          · exact Or.inl ((stageOK_succ_iff data fuel k e t p t1 hm).mpr hOK)
          · exact Or.inr (by omega)
      · rw [if_neg hcmp] at h
        simp only [Option.some.injEq] at h
        subst h
        refine ⟨0, by omega, by rw [safeStage]; exact hm,
          fun j hj => absurd hj (by omega), Or.inl ?_⟩
        rw [stageOK_zero_iff data fuel e t p t1 hm]
        linarith [not_lt.mp hcmp]

/-- C8 confirmed: whenever `makeSafeTruncationNums` returns a plan,
there is a stage `k ≤ 4` (so at most 5 iterations) such that the
returned plan (and time context) is exactly the `k`-th
`makeMeanTruncationNums` result under the `k`-times-halved budget,
every earlier stage failed its re-derived `estimateMaxError ≤ budget`
test, and stage `k` either passes its test or is the fifth and last
iteration (whose plan is returned regardless, with no error raised). -/
theorem C8_safe_retry (data : Model) (e : ℝ) (fuel : ℕ) (t0 : ℝ) (pr : List ℕ × ℝ)
    (h : makeSafeTruncationNums data e fuel t0 = some pr) :
    ∃ k, k ≤ 4 ∧ safeStage data fuel k e t0 = some pr ∧
      (∀ j, j < k → ¬ stageOK data fuel j e t0) ∧
      (stageOK data fuel k e t0 ∨ k = 4) := by
  rw [makeSafeTruncationNums] at h
  exact safeGo_char data fuel 4 e t0 pr h

theorem estimate_mOne_one (t : ℝ) :
    estimateMaxError t mOne (some (([1] : List ℕ).map some)) = 2 := by
  norm_num [estimateMaxError, blockErr, effN, mOne, List.range_succ, Real.sqrt_one]

theorem makeSafe_mOne :
    makeSafeTruncationNums mOne 25 2 0 = some ([1], jdec (260732 + 99 * meanSpan)) := by
  rw [makeSafeTruncationNums]
  show safeGo mOne 2 (4 + 1) 25 0 = _
  rw [safeGo, makeMean_mOne 25 (by norm_num) 0]
  dsimp only
  rw [if_neg (by rw [estimate_mOne_one]; norm_num)]

/-- C8 witness: the retry characterization applied to the one-term
model with budget 25, where the very first stage already passes. -/
theorem C8_witness :
    ∃ k, k ≤ 4 ∧
      safeStage mOne 2 k 25 0 = some ([1], jdec (260732 + 99 * meanSpan)) ∧
      (∀ j, j < k → ¬ stageOK mOne 2 j 25 0) ∧
      (stageOK mOne 2 k 25 0 ∨ k = 4) :=
  C8_safe_retry mOne 25 2 0 ([1], jdec (260732 + 99 * meanSpan)) makeSafe_mOne

end
